import Mathlib

/-! Shallow embedding of `src/src/effects/DtmfGen.cpp` (class `EffectDtmf`,
Audacity's DTMF tone generator), together with proofs about it.

Modelling conventions:

* C++ `double` values (times, durations, sample rates, duty cycle, amplitude)
  are modelled as exact rationals (`ℚ`); the code's own comments reason about
  this arithmetic exactly.
* `sampleCount` (a signed 64-bit counter) is modelled as `ℤ` and `size_t` as
  `ℕ`; no quantity involved approaches the word size.
* The `sin` synthesis of `MakeDtmfTone` is modelled over `ℝ` with `Real.sin`.
* C++ integer division truncates toward zero; every integer division executed
  by the embedded code has nonnegative operands, where truncation agrees with
  Lean's `Int` division.  Division by zero (unreachable in the source, guarded
  there by `wxASSERT(dtmfNTones > 1)`) follows Lean's `x / 0 = 0` convention.
* Loops are embedded with an explicit fuel parameter; `none` models a loop that
  has not reached its exit condition within the fuel, and sufficiency of the
  fuel used is proved, so `some` results coincide with the C loop's behaviour.
-/

namespace DtmfGen

/-- The fade-in/fade-out constant `kFadeInOut = 250.0` of DtmfGen.cpp: fades
last `1/250` of a second. -/
def kFadeInOut : ℚ := 250

/-- The `kSymbols` table of DtmfGen.cpp: the 42 admissible sequence symbols,
each a one-character string in the source, modelled as a `Char`. -/
def kSymbols : List Char :=
  ['0', '1', '2', '3', '4', '5', '6', '7', '8', '9', '*', '#',
   'A', 'B', 'C', 'D',
   'a', 'b', 'c', 'd', 'e', 'f', 'g', 'h', 'i', 'j', 'k', 'l',
   'm', 'n', 'o', 'p', 'q', 'r', 's', 't', 'u', 'v', 'w', 'x',
   'y', 'z']

/-- Cases of the first `switch (tone)` of `MakeDtmfTone` selecting `f1 = 697`. -/
def lowGroup697 : List Char := ['1', '2', '3', 'A', 'a', 'b', 'c', 'd', 'e', 'f']

/-- Cases of the first `switch (tone)` selecting `f1 = 770`. -/
def lowGroup770 : List Char :=
  ['4', '5', '6', 'B', 'g', 'h', 'i', 'j', 'k', 'l', 'm', 'n', 'o']

/-- Cases of the first `switch (tone)` selecting `f1 = 852`. -/
def lowGroup852 : List Char :=
  ['7', '8', '9', 'C', 'p', 'q', 'r', 's', 't', 'u', 'v', 'w', 'x', 'y', 'z']

/-- Cases of the first `switch (tone)` selecting `f1 = 941`. -/
def lowGroup941 : List Char := ['*', '0', '#', 'D']

/-- Cases of the second `switch (tone)` selecting `f2 = 1209`. -/
def highGroup1209 : List Char :=
  ['1', '4', '7', '*', 'g', 'h', 'i', 'p', 'q', 'r', 's']

/-- Cases of the second `switch (tone)` selecting `f2 = 1336`. -/
def highGroup1336 : List Char :=
  ['2', '5', '8', '0', 'a', 'b', 'c', 'j', 'k', 'l', 't', 'u', 'v']

/-- Cases of the second `switch (tone)` selecting `f2 = 1477`. -/
def highGroup1477 : List Char :=
  ['3', '6', '9', '#', 'd', 'e', 'f', 'm', 'n', 'o', 'w', 'x', 'y', 'z']

/-- Cases of the second `switch (tone)` selecting `f2 = 1633`. -/
def highGroup1633 : List Char := ['A', 'B', 'C', 'D']

/-- The low-frequency lookup: the first `switch (tone)` of `MakeDtmfTone`
(`default: f1 = 0`). -/
def dtmfF1 (tone : Char) : ℚ :=
  if tone ∈ lowGroup697 then 697
  else if tone ∈ lowGroup770 then 770
  else if tone ∈ lowGroup852 then 852
  else if tone ∈ lowGroup941 then 941
  else 0

/-- The high-frequency lookup: the second `switch (tone)` of `MakeDtmfTone`
(`default: f2 = 0`). -/
def dtmfF2 (tone : Char) : ℚ :=
  if tone ∈ highGroup1209 then 1209
  else if tone ∈ highGroup1336 then 1336
  else if tone ∈ highGroup1477 then 1477
  else if tone ∈ highGroup1633 then 1633
  else 0

/-- The settings record of `EffectDtmf` (fields of `EffectDtmf::Settings`
relevant to the processing core). -/
structure Settings where
  dtmfSequence : List Char
  dtmfDutyCycle : ℚ
  dtmfAmplitude : ℚ
  dtmfNTones : ℤ
  dtmfTone : ℚ
  dtmfSilence : ℚ
deriving DecidableEq

/-- Model of `EffectDtmf::Settings::Recalculate`: recomputes `dtmfNTones`, `dtmfTone`
and `dtmfSilence` from the sequence, the duty cycle and the effect duration;
returns the updated settings together with the (possibly reset) duration. -/
def Recalculate (st : Settings) (duration : ℚ) : Settings × ℚ :=
  if (st.dtmfSequence.length : ℤ) = 0 then
    ({ st with dtmfNTones := 0, dtmfTone := 0, dtmfSilence := 0 }, 0)
  else if (st.dtmfSequence.length : ℤ) = 1 then
    ({ st with dtmfNTones := (st.dtmfSequence.length : ℤ),
               dtmfTone := duration, dtmfSilence := 0 },
     duration)
  else
    ({ st with dtmfNTones := (st.dtmfSequence.length : ℤ),
               dtmfTone := duration
                   / (((st.dtmfSequence.length : ℤ) : ℚ)
                        + st.dtmfDutyCycle / 100 - 1)
                   * (st.dtmfDutyCycle / 100),
               dtmfSilence := duration
                   / (((st.dtmfSequence.length : ℤ) : ℚ)
                        + st.dtmfDutyCycle / 100 - 1)
                   * (1 - st.dtmfDutyCycle / 100) },
     duration)

/-- Modelled from the spec: the host framework's `ReadAndVerifyDouble` macro
(defined in `Shuttle.h`, which is not part of this repository) accepts an
automation value only inside the declared `[min, max]` bounds of the parameter
table at the top of DtmfGen.cpp. -/
def verifyDouble (v lo hi : ℚ) : Bool :=
  decide (lo ≤ v ∧ v ≤ hi)

/-- Model of `EffectDtmf::SetAutomationParameters`: verifies the incoming duty cycle
(bounds `0, 100`) and amplitude (bounds `0.001, 1`), rejects a sequence with a
character outside `kSymbols` (`find_first_not_of != npos`), and only then
stores the three values and calls `Recalculate`.  `none` models the `false`
return, which leaves the settings untouched. -/
def SetAutomationParameters (st : Settings) (duration : ℚ)
    (seqIn : List Char) (dcIn ampIn : ℚ) : Option (Settings × ℚ) :=
  if verifyDouble dcIn 0 100 = false then none
  else if verifyDouble ampIn (1/1000) 1 = false then none
  else if seqIn.any (fun ch => decide (ch ∉ kSymbols)) then none
  else
    some (Recalculate
      { st with dtmfSequence := seqIn, dtmfDutyCycle := dcIn,
                dtmfAmplitude := ampIn } duration)

/-- The per-run counters computed by `EffectDtmf::ProcessInitialize`. -/
structure InitState where
  numSamplesSequence : ℤ
  numSamplesTone : ℤ
  numSamplesSilence : ℤ
  diff : ℤ
deriving DecidableEq

/-- The remainder-redistribution `while` loop of `ProcessInitialize`
(`while (diff > 2 * dtmfNTones - 1) { ... }`), with explicit fuel.  The
divisions are nonnegative-by-nonnegative at every reachable call, where Lean's
`Int` division agrees with C++ truncation. -/
def redistLoop (T N : ℤ) : ℕ → ℤ × ℤ × ℤ → Option (ℤ × ℤ × ℤ)
  | 0, _ => none
  | fuel + 1, (t, s, diff) =>
    if 2 * N - 1 < diff then
      let t' := t + diff / N
      let s' := s + diff / (N - 1)
      let diff' := T - N * t' - (N - 1) * s'
      redistLoop T N fuel (t', s', diff')
    else some (t, s, diff)

/-- Model of `EffectDtmf::ProcessInitialize`: bails out (`false`, modelled `none`) when
`dtmfNTones <= 0`; otherwise computes the exact selection length
`nT1 - nT0` from the rounded endpoints, the floor-rounded per-slot lengths, and
the redistribution loop's result.  Fuel 2 is enough: the loop body runs at most
once (proved below), so `some` results agree with the source loop. -/
def ProcessInit (st : Settings) (mT0 duration fs : ℚ) : Option InitState :=
  if st.dtmfNTones ≤ 0 then none
  else
    match redistLoop (⌊(mT0 + duration) * fs + 1/2⌋ - ⌊mT0 * fs + 1/2⌋)
        st.dtmfNTones 2
        (⌊st.dtmfTone * fs⌋, ⌊st.dtmfSilence * fs⌋,
         (⌊(mT0 + duration) * fs + 1/2⌋ - ⌊mT0 * fs + 1/2⌋)
           - st.dtmfNTones * ⌊st.dtmfTone * fs⌋
           - (st.dtmfNTones - 1) * ⌊st.dtmfSilence * fs⌋) with
    | none => none
    | some (t, s, d) =>
      some ⟨⌊(mT0 + duration) * fs + 1/2⌋ - ⌊mT0 * fs + 1/2⌋, t, s, d⟩

/-- The whole generator configuration path: `Settings::Recalculate` from a raw
sequence/duty-cycle/duration, then `ProcessInitialize` on its results (the
duration passed on is the one `Recalculate` may have reset). -/
def configInit (seq : List Char) (dc amp dur0 mT0 fs : ℚ) :
    Option InitState :=
  ProcessInit (Recalculate ⟨seq, dc, amp, 0, 0, 0⟩ dur0).1 mT0
    (Recalculate ⟨seq, dc, amp, 0, 0, 0⟩ dur0).2 fs

/-- The mutable cursor of `EffectDtmf::ProcessBlock` (`ProcessInitialize` sets
`curSeqPos = -1`, `isTone = false`, `numRemaining = 0`; `curTonePos` is first
written at a tone start and modelled as 0 initially). -/
structure BlockState where
  isTone : Bool
  curSeqPos : ℤ
  numRemaining : ℤ
  curTonePos : ℤ
  diff : ℤ
deriving DecidableEq

/-- The block-state fields as `ProcessInitialize` leaves them. -/
def initialBlockState (d : ℤ) : BlockState :=
  ⟨false, -1, 0, 0, d⟩

/-- The segment-start branch of the `ProcessBlock` loop
(`if (numRemaining == 0) { isTone = !isTone; ... }` plus
`numRemaining += (diff-- > 0 ? 1 : 0)`). -/
def startSegment (t s : ℤ) (st : BlockState) : BlockState :=
  if !st.isTone then
    { st with isTone := !st.isTone, curSeqPos := st.curSeqPos + 1,
              numRemaining := t + (if 0 < st.diff then 1 else 0),
              curTonePos := 0, diff := st.diff - 1 }
  else
    { st with isTone := !st.isTone,
              numRemaining := s + (if 0 < st.diff then 1 else 0),
              diff := st.diff - 1 }

/-- The `while (size)` loop of `EffectDtmf::ProcessBlock`, one recursive step
per iteration, with explicit fuel.  `seqLen` is the length of
`dtmfSequence`; the guard before the recursive call models the
`dtmfSequence[curSeqPos]` access performed when a tone chunk is generated
(out of bounds is undefined behaviour in the source, modelled as `none`).
`len` is `limitSampleBufferSize(size, numRemaining)`. -/
def ProcessBlockGo (seqLen t s : ℤ) :
    ℕ → BlockState → ℕ → ℕ → Option (BlockState × ℕ)
  | 0, _, _, _ => none
  | fuel + 1, st, size, processed =>
    if size = 0 then some (st, processed)
    else
      let st1 := if st.numRemaining = 0 then startSegment t s st else st
      if st1.isTone = true ∧ ¬(0 ≤ st1.curSeqPos ∧ st1.curSeqPos < seqLen) then
        none
      else
        let len : ℕ := min size st1.numRemaining.toNat
        let st2 := if st1.isTone = true then
            { st1 with curTonePos := st1.curTonePos + len }
          else st1
        ProcessBlockGo seqLen t s fuel
          { st2 with numRemaining := st1.numRemaining - len }
          (size - len) (processed + len)

/-- One call of `EffectDtmf::ProcessBlock` asking for `size` samples.  The fuel
`size + 2 * seqLen.toNat + 2` bounds the loop's iterations (one per produced
chunk plus one per started segment); its sufficiency is proved below. -/
def ProcessBlock (seqLen t s : ℤ) (st : BlockState) (size : ℕ) :
    Option (BlockState × ℕ) :=
  ProcessBlockGo seqLen t s (size + 2 * seqLen.toNat + 2) st size 0

/-- A host driving repeated `ProcessBlock` calls with the given request sizes,
collecting each call's returned `processed` count. -/
def runBlocks (seqLen t s : ℤ) (st : BlockState) :
    List ℕ → Option (BlockState × List ℕ)
  | [] => some (st, [])
  | sz :: rest =>
    match ProcessBlock seqLen t s st sz with
    | none => none
    | some (st1, p) =>
      match runBlocks seqLen t s st1 rest with
      | none => none
      | some (st2, ps) => some (st2, p :: ps)

/-- The lengths of the next `k` segments the `ProcessBlock` loop starts, given
the per-slot lengths `t` and `s`, the current `diff` counter and the current
`isTone` flag: each started segment flips the flag, takes the corresponding
base length, and consumes one sample from `diff` while it is positive
(`numRemaining += (diff-- > 0 ? 1 : 0)`). -/
def segLens (t s : ℤ) : ℕ → ℤ → Bool → List ℤ
  | 0, _, _ => []
  | k + 1, diff, wasTone =>
    let isTone := !wasTone
    ((if isTone then t else s) + (if 0 < diff then 1 else 0)) ::
      segLens t s k (diff - 1) isTone

/-- Number of tone segments among the next `k` segments started when the
current `isTone` flag is `wasTone` (the loop flips the flag before using it). -/
def toneCnt : Bool → ℕ → ℕ
  | _, 0 => 0
  | wasTone, k + 1 => (if wasTone then 0 else 1) + toneCnt (!wasTone) k

/-- Total sample capacity of the segments numbered `j, ..., K - 1` (0-indexed
in the order the `ProcessBlock` loop starts them), when the run has `K`
segments overall and started with `diff = d0`. -/
def cap (t s d0 : ℤ) (K j : ℕ) : ℤ :=
  (segLens t s (K - j) (d0 - (j : ℤ)) (decide (j % 2 = 1))).sum

/-- The abstraction relation for the `ProcessBlock` cursor: after the loop has
started `j` segments and the current segment has `r` samples still to emit,
the concrete fields are determined (`curTonePos` carries no invariant). -/
def InvSt (N d0 : ℤ) (j : ℕ) (r : ℤ) (st : BlockState) : Prop :=
  st.numRemaining = r ∧ 0 ≤ r ∧ st.diff = d0 - (j : ℤ) ∧
  st.isTone = decide (j % 2 = 1) ∧
  st.curSeqPos = (((j + 1) / 2 : ℕ) : ℤ) - 1 ∧
  (j : ℤ) ≤ 2 * N - 1

/-- Duration of the fade windows of `MakeDtmfTone`:
`A = wxMin(len, fs / kFadeInOut)`. -/
def fadeLen (len : ℕ) (fs : ℚ) : ℚ :=
  min (len : ℚ) (fs / kFadeInOut)

/-- The fade-in multiplier applied by `MakeDtmfTone` at buffer index `i`:
under `last == 0`, the loop `for (i = 0; i < A; i++) buffer[i] *= i / A`
touches exactly the indices with `i < A`. -/
def fadeInMul (len : ℕ) (fs : ℚ) (last : ℤ) (i : ℕ) : ℚ :=
  if last = 0 ∧ (i : ℚ) < fadeLen len fs then (i : ℚ) / fadeLen len fs else 1

/-- The fade-out start offset of `MakeDtmfTone`: `size_t offset = len - A`
(the `double` value `len - A` is nonnegative and truncated, i.e. floored). -/
def fadeOutOffset (len : ℕ) (fs : ℚ) : ℤ :=
  ⌊(len : ℚ) - fadeLen len fs⌋

/-- The fade-out multiplier applied by `MakeDtmfTone` at buffer index `k`:
under `last >= total - len`, the loop
`for (i = 0; i < A; i++) buffer[i + offset] *= (1 - i / A)` touches exactly the
indices `k = i + offset` with `0 ≤ i < A`. -/
def fadeOutMul (len : ℕ) (fs : ℚ) (last total : ℤ) (k : ℕ) : ℚ :=
  if total - (len : ℤ) ≤ last ∧ fadeOutOffset len fs ≤ (k : ℤ) ∧
      (k : ℚ) - (fadeOutOffset len fs : ℤ) < fadeLen len fs then
    1 - ((k : ℚ) - (fadeOutOffset len fs : ℤ)) / fadeLen len fs
  else 1

/-- The raw sinusoid written by `MakeDtmfTone` before the fades:
`A = B = 2 * M_PI / fs; A *= f1; B *= f2;` and
`buffer[i] = amplitude * 0.5 * (sin(A * (i + last)) + sin(B * (i + last)))`. -/
noncomputable def rawSample (fs : ℚ) (tone : Char) (last : ℤ)
    (amplitude : ℚ) (i : ℕ) : ℝ :=
  (amplitude : ℝ) * (1 / 2) *
    (Real.sin (2 * Real.pi / (fs : ℝ) * ((dtmfF1 tone : ℚ) : ℝ)
        * (((i : ℤ) + last : ℤ) : ℝ)) +
     Real.sin (2 * Real.pi / (fs : ℝ) * ((dtmfF2 tone : ℚ) : ℝ)
        * (((i : ℤ) + last : ℤ) : ℝ)))

/-- The value `EffectDtmf::MakeDtmfTone` leaves at buffer index `i` of a call
with the given `len`, `fs`, `tone`, `last`, `total` and `amplitude`: the raw
sinusoid scaled by the fade-in and fade-out multipliers (each 1 where its loop
does not touch index `i`). -/
noncomputable def MakeDtmfTone (len : ℕ) (fs : ℚ) (tone : Char)
    (last total : ℤ) (amplitude : ℚ) (i : ℕ) : ℝ :=
  rawSample fs tone last amplitude i *
    ((fadeInMul len fs last i : ℚ) : ℝ) *
    ((fadeOutMul len fs last total i : ℚ) : ℝ)

/-- Unfolding lemma for one iteration of the redistribution loop. -/
theorem redistLoop_succ (T N t s d : ℤ) (fuel : ℕ) :
    redistLoop T N (fuel + 1) (t, s, d)
      = if 2 * N - 1 < d then
          redistLoop T N fuel
            (t + d / N, s + d / (N - 1),
             T - N * (t + d / N) - (N - 1) * (s + d / (N - 1)))
        else some (t, s, d) := rfl

/-- The redistribution loop's body runs at most once: entered with the
coherent `diff = T - N*t - (N-1)*s` that `ProcessInitialize` computes and with
`N ≥ 1`, fuel 2 always reaches the exit condition. -/
theorem redistLoop_two_isSome (T N t s d : ℤ) (hN : 1 ≤ N)
    (hco : d = T - N * t - (N - 1) * s) :
    (redistLoop T N 2 (t, s, d)).isSome = true := by
  have e2 : redistLoop T N 2 (t, s, d) = redistLoop T N (1 + 1) (t, s, d) := rfl
  rw [e2, redistLoop_succ]
  by_cases h1 : 2 * N - 1 < d
  · rw [if_pos h1]
    have hnext : T - N * (t + d / N) - (N - 1) * (s + d / (N - 1))
        = d - N * (d / N) - (N - 1) * (d / (N - 1)) := by
      rw [hco]; ring
    have hexit : ¬ (2 * N - 1 <
        T - N * (t + d / N) - (N - 1) * (s + d / (N - 1))) := by
      rw [hnext]
      rcases eq_or_lt_of_le hN with hN1 | hN2
      · have hz : N = 1 := hN1.symm
        subst hz
        simp
      · have hNpos : (0 : ℤ) < N := by omega
        have hd : 0 ≤ d := by omega
        have hmod : d - N * (d / N) = d % N := by
          rw [Int.emod_def]
        have hmodlt : d % N < N := Int.emod_lt_of_pos d hNpos
        have hdiv2 : 0 ≤ (N - 1) * (d / (N - 1)) :=
          mul_nonneg (by omega) (Int.ediv_nonneg hd (by omega))
        omega
    have e1 : redistLoop T N 1
        (t + d / N, s + d / (N - 1),
         T - N * (t + d / N) - (N - 1) * (s + d / (N - 1)))
        = redistLoop T N (0 + 1)
        (t + d / N, s + d / (N - 1),
         T - N * (t + d / N) - (N - 1) * (s + d / (N - 1))) := rfl
    rw [e1, redistLoop_succ, if_neg hexit]
    rfl
  · rw [if_neg h1]
    rfl

/-- Claim C5: `ProcessInitialize` returns `false` (modelled as `none`) when
`dtmfNTones ≤ 0`, before computing any segmentation state, so no samples are
produced; for every configuration with `dtmfNTones ≥ 1` it returns `true`
(modelled as `some`). -/
theorem c5_processInit_guard (st : Settings) (mT0 duration fs : ℚ) :
    (st.dtmfNTones ≤ 0 → ProcessInit st mT0 duration fs = none)
    ∧ (1 ≤ st.dtmfNTones → (ProcessInit st mT0 duration fs).isSome = true) := by
  constructor
  · intro h
    simp only [ProcessInit, if_pos h]
  · intro h
    have hn : ¬ st.dtmfNTones ≤ 0 := by omega
    have hsome := redistLoop_two_isSome
      (⌊(mT0 + duration) * fs + 1/2⌋ - ⌊mT0 * fs + 1/2⌋) st.dtmfNTones
      ⌊st.dtmfTone * fs⌋ ⌊st.dtmfSilence * fs⌋
      ((⌊(mT0 + duration) * fs + 1/2⌋ - ⌊mT0 * fs + 1/2⌋)
        - st.dtmfNTones * ⌊st.dtmfTone * fs⌋
        - (st.dtmfNTones - 1) * ⌊st.dtmfSilence * fs⌋) h rfl
    obtain ⟨⟨t1, s1, d1⟩, hx⟩ := Option.isSome_iff_exists.mp hsome
    simp only [ProcessInit, if_neg hn, hx]
    rfl

/-- Witness for C5 at a concrete accepted configuration. -/
theorem c5_witness :
    (ProcessInit ⟨['1', '2'], 50, 1, 2, 1/4, 1/4⟩ 0 1 10).isSome = true :=
  (c5_processInit_guard ⟨['1', '2'], 50, 1, 2, 1/4, 1/4⟩ 0 1 10).2 (by decide)

/-- Claim C6: `Recalculate` sets duration, `dtmfTone` and `dtmfSilence` to 0
when the sequence is empty; with one tone, `dtmfTone` is the full duration and
`dtmfSilence` is 0; otherwise `dtmfTone = slot * (dutyCycle/100)` and
`dtmfSilence = slot * (1 - dutyCycle/100)` with
`slot = duration / (N + dutyCycle/100 - 1)`. -/
theorem c6_recalculate (st : Settings) (dur0 : ℚ) :
    (st.dtmfSequence.length = 0 →
      Recalculate st dur0
        = ({ st with dtmfNTones := 0, dtmfTone := 0, dtmfSilence := 0 }, 0))
    ∧ (st.dtmfSequence.length = 1 →
      (Recalculate st dur0).1.dtmfTone = dur0
      ∧ (Recalculate st dur0).1.dtmfSilence = 0
      ∧ (Recalculate st dur0).2 = dur0)
    ∧ (2 ≤ st.dtmfSequence.length →
      (Recalculate st dur0).1.dtmfTone
        = dur0 / ((st.dtmfSequence.length : ℚ) + st.dtmfDutyCycle / 100 - 1)
            * (st.dtmfDutyCycle / 100)
      ∧ (Recalculate st dur0).1.dtmfSilence
        = dur0 / ((st.dtmfSequence.length : ℚ) + st.dtmfDutyCycle / 100 - 1)
            * (1 - st.dtmfDutyCycle / 100)) := by
  refine ⟨fun h => ?_, fun h => ?_, fun h => ?_⟩
  · have h0 : (st.dtmfSequence.length : ℤ) = 0 := by omega
    simp [Recalculate, h0]
  · have h0 : ¬ (st.dtmfSequence.length : ℤ) = 0 := by omega
    have h1 : (st.dtmfSequence.length : ℤ) = 1 := by omega
    simp only [Recalculate, if_neg h0, h1, if_pos rfl]
    exact ⟨rfl, rfl, rfl⟩
  · have h0 : ¬ (st.dtmfSequence.length : ℤ) = 0 := by omega
    have h1 : ¬ (st.dtmfSequence.length : ℤ) = 1 := by omega
    simp only [Recalculate, if_neg h0, if_neg h1]
    constructor <;> push_cast <;> ring

/-- Witness for C6 at a concrete two-tone configuration. -/
theorem c6_witness :
    (Recalculate ⟨['1', '2'], 50, 1, 0, 0, 0⟩ 3).1.dtmfTone
      = 3 / (((['1', '2'] : List Char).length : ℚ) + 50 / 100 - 1) * (50 / 100)
    ∧ (Recalculate ⟨['1', '2'], 50, 1, 0, 0, 0⟩ 3).1.dtmfSilence
      = 3 / (((['1', '2'] : List Char).length : ℚ) + 50 / 100 - 1)
          * (1 - 50 / 100) :=
  (c6_recalculate ⟨['1', '2'], 50, 1, 0, 0, 0⟩ 3).2.2 (by decide)

/-- Core rounding bounds: with per-slot lengths satisfying the exact
`Recalculate` identity `N·τ + (N-1)·σ = dur` and floor-rounded as in
`ProcessInitialize`, the initial remainder `diff` lies between `0` and
`2N - 1` (so the redistribution loop is never entered). -/
theorem diff_bounds (N : ℤ) (τ σ dur mT0 fs : ℚ) (hN : 1 ≤ N)
    (hτ : 0 ≤ τ) (hσ : 0 ≤ σ) (hfs : 0 < fs)
    (hsum : (N : ℚ) * τ + ((N : ℚ) - 1) * σ = dur) :
    0 ≤ ⌊(mT0 + dur) * fs + 1/2⌋ - ⌊mT0 * fs + 1/2⌋
        - N * ⌊τ * fs⌋ - (N - 1) * ⌊σ * fs⌋
    ∧ ⌊(mT0 + dur) * fs + 1/2⌋ - ⌊mT0 * fs + 1/2⌋
        - N * ⌊τ * fs⌋ - (N - 1) * ⌊σ * fs⌋ ≤ 2 * N - 1 := by
  have hNQ : (1 : ℚ) ≤ (N : ℚ) := by exact_mod_cast hN
  have hD : dur * fs = (N : ℚ) * (τ * fs) + ((N : ℚ) - 1) * (σ * fs) := by
    rw [← hsum]; ring
  have hsplit : (mT0 + dur) * fs + 1/2 = (mT0 * fs + 1/2) + dur * fs := by
    ring
  rw [hsplit]
  set a : ℚ := mT0 * fs + 1/2 with ha
  set D : ℚ := dur * fs with hDd
  have I1 : N * ⌊τ * fs⌋ + (N - 1) * ⌊σ * fs⌋ ≤ ⌊D⌋ := by
    apply Int.le_floor.mpr
    push_cast
    have f1 : (⌊τ * fs⌋ : ℚ) ≤ τ * fs := Int.floor_le _
    have f2 : (⌊σ * fs⌋ : ℚ) ≤ σ * fs := Int.floor_le _
    have m1 : (N : ℚ) * (⌊τ * fs⌋ : ℚ) ≤ (N : ℚ) * (τ * fs) :=
      mul_le_mul_of_nonneg_left f1 (by linarith)
    have m2 : ((N : ℚ) - 1) * (⌊σ * fs⌋ : ℚ) ≤ ((N : ℚ) - 1) * (σ * fs) :=
      mul_le_mul_of_nonneg_left f2 (by linarith)
    linarith [hD, hDd]
  have I2 : ⌊a⌋ + ⌊D⌋ ≤ ⌊a + D⌋ := by
    apply Int.le_floor.mpr
    push_cast
    have g1 := Int.floor_le a
    have g2 := Int.floor_le D
    linarith
  have I3 : ⌊a + D⌋ ≤ ⌊a⌋ + ⌊D⌋ + 1 := by
    have h2 : ⌊a + D⌋ < ⌊a⌋ + ⌊D⌋ + 2 := by
      apply Int.floor_lt.mpr
      push_cast
      have g1 := Int.lt_floor_add_one a
      have g2 := Int.lt_floor_add_one D
      linarith
    omega
  have I4 : ⌊D⌋ - 2 * N + 1 < N * ⌊τ * fs⌋ + (N - 1) * ⌊σ * fs⌋ := by
    have hcast : ((⌊D⌋ - 2 * N + 1 : ℤ) : ℚ)
        < ((N * ⌊τ * fs⌋ + (N - 1) * ⌊σ * fs⌋ : ℤ) : ℚ) := by
      push_cast
      have f1 : τ * fs - 1 < (⌊τ * fs⌋ : ℚ) := Int.sub_one_lt_floor _
      have f2 : σ * fs - 1 < (⌊σ * fs⌋ : ℚ) := Int.sub_one_lt_floor _
      have m1 : (N : ℚ) * (τ * fs - 1) < (N : ℚ) * (⌊τ * fs⌋ : ℚ) :=
        mul_lt_mul_of_pos_left f1 (by linarith)
      have m2 : ((N : ℚ) - 1) * (σ * fs - 1) ≤ ((N : ℚ) - 1) * (⌊σ * fs⌋ : ℚ) :=
        mul_le_mul_of_nonneg_left (le_of_lt f2) (by linarith)
      have fD : (⌊D⌋ : ℚ) ≤ D := Int.floor_le D
      linarith [hD, hDd]
    exact_mod_cast hcast
  constructor <;> linarith

/-- Running `Recalculate` on a nonempty sequence with duty cycle in `[0, 100]` and a
nonnegative duration: the tone count is the sequence length, the duration is
kept, and the derived slot lengths are nonnegative and satisfy
`N * tone + (N - 1) * silence = duration` exactly. -/
theorem recalc_spec (st : Settings) (dur0 : ℚ)
    (h0 : 0 ≤ st.dtmfDutyCycle) (h1 : st.dtmfDutyCycle ≤ 100)
    (hdur : 0 ≤ dur0) (hne : st.dtmfSequence ≠ []) :
    (Recalculate st dur0).1.dtmfNTones = (st.dtmfSequence.length : ℤ)
    ∧ (Recalculate st dur0).2 = dur0
    ∧ 0 ≤ (Recalculate st dur0).1.dtmfTone
    ∧ 0 ≤ (Recalculate st dur0).1.dtmfSilence
    ∧ (st.dtmfSequence.length : ℚ) * (Recalculate st dur0).1.dtmfTone
        + ((st.dtmfSequence.length : ℚ) - 1)
          * (Recalculate st dur0).1.dtmfSilence
        = dur0 := by
  have hlen : 0 < st.dtmfSequence.length := List.length_pos.mpr hne
  have hz : ¬ (st.dtmfSequence.length : ℤ) = 0 := by omega
  by_cases hone : st.dtmfSequence.length = 1
  · have ho : (st.dtmfSequence.length : ℤ) = 1 := by omega
    unfold Recalculate
    rw [if_neg hz, if_pos ho]
    refine ⟨rfl, rfl, hdur, le_refl 0, ?_⟩
    rw [hone]
    push_cast
    ring
  · have ho : ¬ (st.dtmfSequence.length : ℤ) = 1 := by omega
    have hlen2 : 2 ≤ st.dtmfSequence.length := by omega
    unfold Recalculate
    rw [if_neg hz, if_neg ho]
    have hlenQ : (2 : ℚ) ≤ (st.dtmfSequence.length : ℚ) := by
      exact_mod_cast hlen2
    have hdc1 : 0 ≤ st.dtmfDutyCycle / 100 := by linarith
    have hdc2 : st.dtmfDutyCycle / 100 ≤ 1 := by linarith
    have hden : 0 < (st.dtmfSequence.length : ℚ)
        + st.dtmfDutyCycle / 100 - 1 := by linarith
    have hslot : 0 ≤ dur0 / ((st.dtmfSequence.length : ℚ)
        + st.dtmfDutyCycle / 100 - 1) := div_nonneg hdur (le_of_lt hden)
    refine ⟨rfl, rfl, ?_, ?_, ?_⟩
    · show 0 ≤ dur0 / (((st.dtmfSequence.length : ℤ) : ℚ)
        + st.dtmfDutyCycle / 100 - 1) * (st.dtmfDutyCycle / 100)
      push_cast
      exact mul_nonneg hslot hdc1
    · show 0 ≤ dur0 / (((st.dtmfSequence.length : ℤ) : ℚ)
        + st.dtmfDutyCycle / 100 - 1) * (1 - st.dtmfDutyCycle / 100)
      push_cast
      exact mul_nonneg hslot (by linarith)
    · push_cast
      have key : (st.dtmfSequence.length : ℚ)
            * (dur0
               / ((st.dtmfSequence.length : ℚ) + st.dtmfDutyCycle / 100 - 1)
               * (st.dtmfDutyCycle / 100))
          + ((st.dtmfSequence.length : ℚ) - 1)
            * (dur0
               / ((st.dtmfSequence.length : ℚ) + st.dtmfDutyCycle / 100 - 1)
               * (1 - st.dtmfDutyCycle / 100))
          = dur0
            / ((st.dtmfSequence.length : ℚ) + st.dtmfDutyCycle / 100 - 1)
            * ((st.dtmfSequence.length : ℚ) + st.dtmfDutyCycle / 100 - 1) := by
        ring
      rw [key, div_mul_cancel₀ _ (ne_of_gt hden)]

/-- Unpacking a successful `configInit`: the counters are exactly the
floor-rounded quantities `ProcessInitialize` computes from the `Recalculate`
output, the redistribution loop never runs, and the remainder `diff` is
between `0` and `2N - 1`. -/
theorem configInit_spec (seq : List Char) (dc amp dur0 mT0 fs : ℚ)
    (h0 : 0 ≤ dc) (h1 : dc ≤ 100) (hdur : 0 ≤ dur0) (hfs : 0 < fs)
    (ist : InitState)
    (hinit : configInit seq dc amp dur0 mT0 fs = some ist) :
    1 ≤ (seq.length : ℤ)
    ∧ ist.numSamplesSequence
        = ⌊(mT0 + dur0) * fs + 1/2⌋ - ⌊mT0 * fs + 1/2⌋
    ∧ ist.numSamplesTone
        = ⌊(Recalculate ⟨seq, dc, amp, 0, 0, 0⟩ dur0).1.dtmfTone * fs⌋
    ∧ ist.numSamplesSilence
        = ⌊(Recalculate ⟨seq, dc, amp, 0, 0, 0⟩ dur0).1.dtmfSilence * fs⌋
    ∧ 0 ≤ ist.numSamplesTone
    ∧ 0 ≤ ist.numSamplesSilence
    ∧ ist.diff = ist.numSamplesSequence
        - (seq.length : ℤ) * ist.numSamplesTone
        - ((seq.length : ℤ) - 1) * ist.numSamplesSilence
    ∧ 0 ≤ ist.diff
    ∧ ist.diff ≤ 2 * (seq.length : ℤ) - 1 := by
  by_cases hnil : seq = []
  · exfalso
    subst hnil
    simp [configInit, Recalculate, ProcessInit] at hinit
  · have hlen : 0 < seq.length := List.length_pos.mpr hnil
    have hNZ : 1 ≤ (seq.length : ℤ) := by omega
    obtain ⟨hNT, hdur2, hτ0, hσ0, hid⟩ :=
      recalc_spec ⟨seq, dc, amp, 0, 0, 0⟩ dur0 h0 h1 hdur hnil
    have hNT2 : (Recalculate ⟨seq, dc, amp, 0, 0, 0⟩ dur0).1.dtmfNTones
        = (seq.length : ℤ) := hNT
    have hid2 : (seq.length : ℚ)
          * (Recalculate ⟨seq, dc, amp, 0, 0, 0⟩ dur0).1.dtmfTone
        + ((seq.length : ℚ) - 1)
          * (Recalculate ⟨seq, dc, amp, 0, 0, 0⟩ dur0).1.dtmfSilence
        = dur0 := hid
    unfold configInit at hinit
    rw [hdur2] at hinit
    have hguard : ¬ (Recalculate ⟨seq, dc, amp, 0, 0, 0⟩ dur0).1.dtmfNTones
        ≤ 0 := by
      rw [hNT2]; omega
    unfold ProcessInit at hinit
    rw [if_neg hguard, hNT2] at hinit
    set τ := (Recalculate ⟨seq, dc, amp, 0, 0, 0⟩ dur0).1.dtmfTone with hτdef
    set σ := (Recalculate ⟨seq, dc, amp, 0, 0, 0⟩ dur0).1.dtmfSilence with hσdef
    obtain ⟨hb0, hb1⟩ := diff_bounds (seq.length : ℤ) τ σ dur0 mT0 fs hNZ hτ0
      hσ0 hfs (by exact_mod_cast hid2)
    have hnb : ¬ (2 * (seq.length : ℤ) - 1 <
        ⌊(mT0 + dur0) * fs + 1/2⌋ - ⌊mT0 * fs + 1/2⌋
          - (seq.length : ℤ) * ⌊τ * fs⌋
          - ((seq.length : ℤ) - 1) * ⌊σ * fs⌋) := not_lt.mpr hb1
    have hloop : redistLoop (⌊(mT0 + dur0) * fs + 1/2⌋ - ⌊mT0 * fs + 1/2⌋)
        (seq.length : ℤ) 2
        (⌊τ * fs⌋, ⌊σ * fs⌋,
         ⌊(mT0 + dur0) * fs + 1/2⌋ - ⌊mT0 * fs + 1/2⌋
           - (seq.length : ℤ) * ⌊τ * fs⌋
           - ((seq.length : ℤ) - 1) * ⌊σ * fs⌋)
        = some (⌊τ * fs⌋, ⌊σ * fs⌋,
         ⌊(mT0 + dur0) * fs + 1/2⌋ - ⌊mT0 * fs + 1/2⌋
           - (seq.length : ℤ) * ⌊τ * fs⌋
           - ((seq.length : ℤ) - 1) * ⌊σ * fs⌋) := by
      have e2 : (2 : ℕ) = 1 + 1 := rfl
      rw [e2, redistLoop_succ, if_neg hnb]
    rw [hloop] at hinit
    have hival := Option.some.inj hinit
    subst hival
    refine ⟨hNZ, rfl, rfl, rfl, ?_, ?_, rfl, hb0, hb1⟩
    · exact Int.floor_nonneg.mpr (mul_nonneg hτ0 (le_of_lt hfs))
    · exact Int.floor_nonneg.mpr (mul_nonneg hσ0 (le_of_lt hfs))

/-- Claim C2 (amended): for every total sample count `T`, slot count `N ≥ 1`
and floor-derived tone/silence lengths `t`, `s` (floors of slot lengths
satisfying the exact `Recalculate` identity), the redistribution loop
terminates (here: already at fuel 1, since its body never runs), and on exit
the remainder satisfies `0 ≤ diff ≤ 2N - 1`.  The strict bound
`diff < 2N - 1` claimed by the spec fails; see `c2_counterexample`. -/
theorem c2_redist_exit (N : ℤ) (τ σ dur mT0 fs : ℚ) (t s T : ℤ)
    (hN : 1 ≤ N) (hτ : 0 ≤ τ) (hσ : 0 ≤ σ) (hfs : 0 < fs)
    (hsum : (N : ℚ) * τ + ((N : ℚ) - 1) * σ = dur)
    (ht : t = ⌊τ * fs⌋) (hs : s = ⌊σ * fs⌋)
    (hT : T = ⌊(mT0 + dur) * fs + 1/2⌋ - ⌊mT0 * fs + 1/2⌋)
    (fuel : ℕ) (hfuel : 1 ≤ fuel) :
    redistLoop T N fuel (t, s, T - N * t - (N - 1) * s)
      = some (t, s, T - N * t - (N - 1) * s)
    ∧ 0 ≤ T - N * t - (N - 1) * s
    ∧ T - N * t - (N - 1) * s ≤ 2 * N - 1 := by
  obtain ⟨hb0, hb1⟩ := diff_bounds N τ σ dur mT0 fs hN hτ hσ hfs hsum
  rw [← ht, ← hs, ← hT] at hb0 hb1
  obtain ⟨fuel, rfl⟩ : ∃ k, fuel = k + 1 := ⟨fuel - 1, by omega⟩
  rw [redistLoop_succ, if_neg (by omega)]
  exact ⟨rfl, hb0, hb1⟩

/-- Witness for C2 at a concrete floor-derived input (two tones, duty cycle
50, duration 3/4 s, rate 8). -/
theorem c2_witness :
    redistLoop 6 2 2 (2, 2, 6 - 2 * 2 - (2 - 1) * 2)
      = some (2, 2, 6 - 2 * 2 - (2 - 1) * 2)
    ∧ (0 : ℤ) ≤ 6 - 2 * 2 - (2 - 1) * 2
    ∧ (6 : ℤ) - 2 * 2 - (2 - 1) * 2 ≤ 2 * 2 - 1 :=
  c2_redist_exit 2 (1/4) (1/4) (3/4) 0 8 2 2 6 (by norm_num) (by norm_num)
    (by norm_num) (by norm_num) (by norm_num)
    (by symm; rw [Int.floor_eq_iff] <;> norm_num)
    (by symm; rw [Int.floor_eq_iff] <;> norm_num)
    (by
      have h1 : ⌊((0 : ℚ) + 3/4) * 8 + 1/2⌋ = 6 := by
        rw [Int.floor_eq_iff] <;> norm_num
      have h2 : ⌊(0 : ℚ) * 8 + 1/2⌋ = 0 := by
        rw [Int.floor_eq_iff] <;> norm_num
      rw [h1, h2]
      norm_num)
    2 (by norm_num)

/-- Claim C2 counterexample: at the floor-derived input with one tone
(`N = 1`, sequence of a single symbol, `mT0 = 0`, duration `1/2` s, rate 1)
the slot lengths floor to `t = 0`, `s = 0` while the total is `T = 1`; the
loop exits immediately with `diff = 1 = 2N - 1`, refuting the claimed strict
exit bound `diff < 2N - 1`. -/
theorem c2_counterexample :
    (1 : ℚ) * (1/2) + ((1 : ℚ) - 1) * 0 = 1/2
    ∧ (0 : ℤ) = ⌊(1/2 : ℚ) * 1⌋
    ∧ (0 : ℤ) = ⌊(0 : ℚ) * 1⌋
    ∧ (1 : ℤ) = ⌊((0 : ℚ) + 1/2) * 1 + 1/2⌋ - ⌊(0 : ℚ) * 1 + 1/2⌋
    ∧ redistLoop 1 1 2 (0, 0, 1 - 1 * 0 - (1 - 1) * 0)
        = some (0, 0, 1 - 1 * 0 - (1 - 1) * 0)
    ∧ ¬ (1 - 1 * 0 - (1 - 1) * 0 < 2 * 1 - 1) := by
  refine ⟨by norm_num, ?_, ?_, ?_, by decide, by decide⟩
  · symm
    rw [Int.floor_eq_iff] <;> norm_num
  · symm
    rw [Int.floor_eq_iff] <;> norm_num
  · have h1 : ⌊((0 : ℚ) + 1/2) * 1 + 1/2⌋ = 1 := by
      rw [Int.floor_eq_iff] <;> norm_num
    have h2 : ⌊(0 : ℚ) * 1 + 1/2⌋ = 0 := by
      rw [Int.floor_eq_iff] <;> norm_num
    rw [h1, h2]
    norm_num

/-- Claim C7 (amended): with `N > 1` tones, duty cycle 100 makes the derived
silence slot length `dtmfSilence` zero, and the base silence sample count
`numSamplesSilence` zero (each silence slot is empty except possibly for one
extra redistributed remainder sample — see `c7_counterexample`); duty cycle 0
symmetrically zeroes `dtmfTone` and `numSamplesTone`. -/
theorem c7_duty_extremes (seq : List Char) (amp dur0 mT0 fs : ℚ)
    (hN : 2 ≤ seq.length) (hdur : 0 ≤ dur0) (hfs : 0 < fs) :
    ((Recalculate ⟨seq, 100, amp, 0, 0, 0⟩ dur0).1.dtmfSilence = 0
      ∧ ∀ ist, configInit seq 100 amp dur0 mT0 fs = some ist →
          ist.numSamplesSilence = 0)
    ∧ ((Recalculate ⟨seq, 0, amp, 0, 0, 0⟩ dur0).1.dtmfTone = 0
      ∧ ∀ ist, configInit seq 0 amp dur0 mT0 fs = some ist →
          ist.numSamplesTone = 0) := by
  have hz : ¬ (seq.length : ℤ) = 0 := by omega
  have ho : ¬ (seq.length : ℤ) = 1 := by omega
  have hsil : (Recalculate ⟨seq, 100, amp, 0, 0, 0⟩ dur0).1.dtmfSilence = 0 := by
    simp only [Recalculate]
    rw [if_neg hz, if_neg ho]
    norm_num
  have htone : (Recalculate ⟨seq, 0, amp, 0, 0, 0⟩ dur0).1.dtmfTone = 0 := by
    simp only [Recalculate]
    rw [if_neg hz, if_neg ho]
    norm_num
  refine ⟨⟨hsil, fun ist hinit => ?_⟩, ⟨htone, fun ist hinit => ?_⟩⟩
  · obtain ⟨-, -, -, hsv, -, -, -, -, -⟩ := configInit_spec seq 100 amp dur0
      mT0 fs (by norm_num) (by norm_num) hdur hfs ist hinit
    rw [hsv, hsil]
    norm_num
  · obtain ⟨-, -, htv, -, -, -, -, -, -⟩ := configInit_spec seq 0 amp dur0
      mT0 fs (by norm_num) (by norm_num) hdur hfs ist hinit
    rw [htv, htone]
    norm_num

/-- Witness for C7 at a concrete configuration with two tones. -/
theorem c7_witness :
    (Recalculate ⟨['1', '2'], 100, 1, 0, 0, 0⟩ 1).1.dtmfSilence = 0 :=
  (c7_duty_extremes ['1', '2'] 1 1 0 10 (by decide) (by norm_num)
    (by norm_num)).1.1

/-- Computation helper: `Recalculate` on sequence "12", duty cycle 100,
duration 0.59 s. -/
theorem recalc_12_100 :
    Recalculate ⟨['1', '2'], 100, 1, 0, 0, 0⟩ (59/100)
      = (⟨['1', '2'], 100, 1, 2, 59/200, 0⟩, 59/100) := by
  simp only [Recalculate]
  norm_num

/-- Computation helper: `ProcessInitialize` on the recalculated "12" settings
of `recalc_12_100`. -/
theorem processInit_12_100 :
    ProcessInit ⟨['1', '2'], 100, 1, 2, 59/200, 0⟩ 0 (59/100) 10
      = some ⟨6, 2, 0, 2⟩ := by
  have h1 : ⌊((0 : ℚ) + 59/100) * 10 + 1/2⌋ = 6 := by
    rw [Int.floor_eq_iff] <;> norm_num
  have h2 : ⌊(0 : ℚ) * 10 + 1/2⌋ = 0 := by
    rw [Int.floor_eq_iff] <;> norm_num
  have h3 : ⌊(59/200 : ℚ) * 10⌋ = 2 := by
    rw [Int.floor_eq_iff] <;> norm_num
  have h4 : ⌊(0 : ℚ) * 10⌋ = 0 := by
    rw [Int.floor_eq_iff] <;> norm_num
  simp only [ProcessInit, h1, h2, h3, h4]
  norm_num [redistLoop]

/-- Claim C7 counterexample: sequence "12", duty cycle 100, duration 0.59 s at
rate 10: the derived `dtmfSilence` is 0 as claimed, but the segment lengths
the block loop produces from the initialized counters (`t = 2`, `s = 0`,
`diff = 2`) are `[3, 1, 2]` — the silence slot between the two tones receives
one redistributed remainder sample and is 1 sample long, not 0. -/
theorem c7_counterexample :
    (Recalculate ⟨['1', '2'], 100, 1, 0, 0, 0⟩ (59/100)).1.dtmfSilence = 0
    ∧ configInit ['1', '2'] 100 1 (59/100) 0 10 = some ⟨6, 2, 0, 2⟩
    ∧ segLens 2 0 3 2 false = [3, 1, 2]
    ∧ (segLens 2 0 3 2 false).getD 1 0 ≠ 0 := by
  refine ⟨?_, ?_, by decide, by decide⟩
  · rw [recalc_12_100]
  · show ProcessInit (Recalculate ⟨['1', '2'], 100, 1, 0, 0, 0⟩ (59/100)).1 0
      (Recalculate ⟨['1', '2'], 100, 1, 0, 0, 0⟩ (59/100)).2 10
      = some ⟨6, 2, 0, 2⟩
    rw [recalc_12_100]
    exact processInit_12_100

/-- Step identity for the count of extra samples drawn from the `diff`
counter. -/
theorem extra_step (d : ℤ) (k : ℕ) :
    (if 0 < d then (1 : ℤ) else 0) + min (max (d - 1) 0) (k : ℤ)
      = min (max d 0) ((k : ℤ) + 1) := by
  split <;> omega

/-- Closed form of the segment-length sum: tone count times `t`, silence count
times `s`, plus the number of extra `diff` samples consumed. -/
theorem segLens_sum (t s : ℤ) :
    ∀ (k : ℕ) (d : ℤ) (b : Bool),
      (segLens t s k d b).sum
        = (toneCnt b k : ℤ) * t + ((k : ℤ) - toneCnt b k) * s
          + min (max d 0) (k : ℤ) := by
  intro k
  induction k with
  | zero =>
    intro d b
    simp [segLens, toneCnt]
  | succ k ih =>
    intro d b
    have hstep : segLens t s (k + 1) d b
        = ((if !b then t else s) + (if 0 < d then 1 else 0)) ::
            segLens t s k (d - 1) (!b) := rfl
    rw [hstep, List.sum_cons, ih (d - 1) (!b)]
    have he := extra_step d k
    cases b with
    | false =>
      simp only [toneCnt, Bool.not_false, if_true, if_false,
        Bool.false_eq_true, ite_true, ite_false]
      push_cast
      linarith [he]
    | true =>
      simp only [toneCnt, Bool.not_true, if_true, if_false,
        Bool.true_eq_false, ite_true, ite_false]
      push_cast
      linarith [he]

/-- Tone segments alternate starting with a tone: among `k` started segments,
`⌈k/2⌉` are tones when the flag starts `false`, `⌊k/2⌋` when it starts
`true`. -/
theorem toneCnt_halves : ∀ k : ℕ,
    toneCnt false k = (k + 1) / 2 ∧ toneCnt true k = k / 2 := by
  intro k
  induction k with
  | zero => simp [toneCnt]
  | succ k ih =>
    obtain ⟨iha, ihb⟩ := ih
    constructor <;> simp [toneCnt] <;> omega

/-- Closure of the segment decomposition: with `K = 2N - 1` segments, a
coherent remainder `d` in `[0, 2N-1]`, the segment lengths sum to the total
`T`. -/
theorem segLens_total (t s T N d : ℤ) (K : ℕ)
    (hN : 1 ≤ N) (hK : (K : ℤ) = 2 * N - 1)
    (hdiff : d = T - N * t - (N - 1) * s) (hd0 : 0 ≤ d)
    (hd1 : d ≤ 2 * N - 1) :
    (segLens t s K d false).sum = T := by
  have hk1 : (K + 1) / 2 = N.toNat := by omega
  rw [segLens_sum, (toneCnt_halves K).1, hk1]
  have hNt : ((N.toNat : ℕ) : ℤ) = N := by omega
  rw [hNt, max_eq_left hd0, min_eq_left (by omega : d ≤ (K : ℤ)), hdiff, hK]
  ring

/-- Claim C1: for every configuration accepted by `ProcessInitialize`
(duty cycle in `[0,100]`, nonnegative duration, positive rate; acceptance
forces a nonempty sequence), the sum of the `2N - 1` segment lengths the
`ProcessBlock` loop produces — `N` tone segments of `numSamplesTone` samples
and `N - 1` silence segments of `numSamplesSilence` samples, each possibly
extended by one extra sample while the `diff` counter is positive — equals
`numSamplesSequence = ⌊(mT0 + duration)·fs + 1/2⌋ - ⌊mT0·fs + 1/2⌋`
exactly. -/
theorem c1_segment_sum (seq : List Char) (dc amp dur0 mT0 fs : ℚ)
    (h0 : 0 ≤ dc) (h1 : dc ≤ 100) (hdur : 0 ≤ dur0) (hfs : 0 < fs)
    (ist : InitState)
    (hinit : configInit seq dc amp dur0 mT0 fs = some ist) :
    (segLens ist.numSamplesTone ist.numSamplesSilence
        (2 * seq.length - 1) ist.diff false).sum
      = ist.numSamplesSequence
    ∧ ist.numSamplesSequence
      = ⌊(mT0 + dur0) * fs + 1/2⌋ - ⌊mT0 * fs + 1/2⌋ := by
  obtain ⟨hN, hTeq, -, -, -, -, hdiff, hd0, hd1⟩ :=
    configInit_spec seq dc amp dur0 mT0 fs h0 h1 hdur hfs ist hinit
  refine ⟨?_, hTeq⟩
  exact segLens_total ist.numSamplesTone ist.numSamplesSilence
    ist.numSamplesSequence (seq.length : ℤ) ist.diff (2 * seq.length - 1)
    hN (by omega) hdiff hd0 hd1

/-- Computation helper: `Recalculate` on sequence "12", duty cycle 50,
duration 1 s. -/
theorem recalc_12_50 :
    Recalculate ⟨['1', '2'], 50, 1, 0, 0, 0⟩ 1
      = (⟨['1', '2'], 50, 1, 2, 1/3, 1/3⟩, 1) := by
  simp only [Recalculate]
  norm_num

/-- Computation helper: `ProcessInitialize` on the recalculated "12" settings
of `recalc_12_50`. -/
theorem processInit_12_50 :
    ProcessInit ⟨['1', '2'], 50, 1, 2, 1/3, 1/3⟩ 0 1 10
      = some ⟨10, 3, 3, 1⟩ := by
  have h1 : ⌊((0 : ℚ) + 1) * 10 + 1/2⌋ = 10 := by
    rw [Int.floor_eq_iff] <;> norm_num
  have h2 : ⌊(0 : ℚ) * 10 + 1/2⌋ = 0 := by
    rw [Int.floor_eq_iff] <;> norm_num
  have h3 : ⌊(1/3 : ℚ) * 10⌋ = 3 := by
    rw [Int.floor_eq_iff] <;> norm_num
  simp only [ProcessInit, h1, h2, h3]
  norm_num [redistLoop]

/-- Computation helper: the full configuration path on sequence "12", duty
cycle 50, duration 1 s, rate 10. -/
theorem configInit_12_50 :
    configInit ['1', '2'] 50 1 1 0 10 = some ⟨10, 3, 3, 1⟩ := by
  show ProcessInit (Recalculate ⟨['1', '2'], 50, 1, 0, 0, 0⟩ 1).1 0
      (Recalculate ⟨['1', '2'], 50, 1, 0, 0, 0⟩ 1).2 10
      = some ⟨10, 3, 3, 1⟩
  rw [recalc_12_50]
  exact processInit_12_50

/-- Witness for C1 at the concrete configuration of `configInit_12_50`. -/
theorem c1_witness :
    (segLens (⟨10, 3, 3, 1⟩ : InitState).numSamplesTone
        (⟨10, 3, 3, 1⟩ : InitState).numSamplesSilence
        (2 * (['1', '2'] : List Char).length - 1)
        (⟨10, 3, 3, 1⟩ : InitState).diff false).sum
      = (⟨10, 3, 3, 1⟩ : InitState).numSamplesSequence
    ∧ (⟨10, 3, 3, 1⟩ : InitState).numSamplesSequence
      = ⌊((0 : ℚ) + 1) * 10 + 1/2⌋ - ⌊(0 : ℚ) * 10 + 1/2⌋ :=
  c1_segment_sum ['1', '2'] 50 1 1 0 10 (by norm_num) (by norm_num)
    (by norm_num) (by norm_num) ⟨10, 3, 3, 1⟩ configInit_12_50

/-- Claim C9: `SetAutomationParameters` rejects (returns `false`, modelled as
`none`, leaving the stored settings untouched) any sequence containing a
character outside `kSymbols`; when the duty cycle and amplitude are within
their declared bounds and the sequence is within the alphabet, it stores the
three values and reruns `Recalculate` on them. -/
theorem c9_setAutomation (st : Settings) (duration : ℚ)
    (seqIn : List Char) (dcIn ampIn : ℚ) :
    ((∃ ch ∈ seqIn, ch ∉ kSymbols) →
      SetAutomationParameters st duration seqIn dcIn ampIn = none)
    ∧ (0 ≤ dcIn → dcIn ≤ 100 → 1/1000 ≤ ampIn → ampIn ≤ 1 →
      (∀ ch ∈ seqIn, ch ∈ kSymbols) →
      SetAutomationParameters st duration seqIn dcIn ampIn
        = some (Recalculate
            { st with dtmfSequence := seqIn, dtmfDutyCycle := dcIn,
                      dtmfAmplitude := ampIn } duration)) := by
  constructor
  · rintro ⟨ch, hm, hn⟩
    have hany : (seqIn.any fun c => decide (c ∉ kSymbols)) = true :=
      List.any_eq_true.mpr ⟨ch, hm, by simpa using hn⟩
    unfold SetAutomationParameters
    rw [hany]
    simp [ite_self]
  · intro hdc0 hdc1 hamp0 hamp1 hall
    have hv1 : verifyDouble dcIn 0 100 = true := by
      simp only [verifyDouble, decide_eq_true_eq]
      exact ⟨hdc0, hdc1⟩
    have hv2 : verifyDouble ampIn (1/1000) 1 = true := by
      simp only [verifyDouble, decide_eq_true_eq]
      exact ⟨hamp0, hamp1⟩
    have hany : (seqIn.any fun c => decide (c ∉ kSymbols)) = false := by
      rw [List.any_eq_false]
      intro c hc
      simpa using hall c hc
    simp only [SetAutomationParameters, hv1, hv2, hany]
    simp

/-- Witness for C9 at a concrete in-alphabet parameter set. -/
theorem c9_witness :
    SetAutomationParameters ⟨[], 50, 1, 0, 0, 0⟩ 1 ['1', 'a'] 50 1
      = some (Recalculate ⟨['1', 'a'], 50, 1, 0, 0, 0⟩ 1) :=
  (c9_setAutomation ⟨[], 50, 1, 0, 0, 0⟩ 1 ['1', 'a'] 50 1).2
    (by norm_num) (by norm_num) (by norm_num) (by norm_num) (by decide)

/-- A symbol outside the `kSymbols` alphabet falls through to the `default`
branch of both frequency switches of `MakeDtmfTone`. -/
theorem unmapped_freqs (c : Char) (h : c ∉ kSymbols) :
    dtmfF1 c = 0 ∧ dtmfF2 c = 0 := by
  have g1 : ∀ x ∈ lowGroup697, x ∈ kSymbols := by decide
  have g2 : ∀ x ∈ lowGroup770, x ∈ kSymbols := by decide
  have g3 : ∀ x ∈ lowGroup852, x ∈ kSymbols := by decide
  have g4 : ∀ x ∈ lowGroup941, x ∈ kSymbols := by decide
  have g5 : ∀ x ∈ highGroup1209, x ∈ kSymbols := by decide
  have g6 : ∀ x ∈ highGroup1336, x ∈ kSymbols := by decide
  have g7 : ∀ x ∈ highGroup1477, x ∈ kSymbols := by decide
  have g8 : ∀ x ∈ highGroup1633, x ∈ kSymbols := by decide
  constructor
  · unfold dtmfF1
    rw [if_neg (fun hx => h (g1 c hx)), if_neg (fun hx => h (g2 c hx)),
      if_neg (fun hx => h (g3 c hx)), if_neg (fun hx => h (g4 c hx))]
  · unfold dtmfF2
    rw [if_neg (fun hx => h (g5 c hx)), if_neg (fun hx => h (g6 c hx)),
      if_neg (fun hx => h (g7 c hx)), if_neg (fun hx => h (g8 c hx))]

/-- Claim C3: `MakeDtmfTone` computes at index `i`, before the fade scaling,
exactly `amplitude * 0.5 * (sin(2π·f_low·(i+last)/fs) +
sin(2π·f_high·(i+last)/fs))` with the frequency pair given by the two lookup
switches; for a symbol absent from both switches both frequencies are 0 and
every written sample (fades included) is 0. -/
theorem c3_tone_formula (len : ℕ) (fs : ℚ) (c : Char) (last total : ℤ)
    (amplitude : ℚ) (i : ℕ) :
    rawSample fs c last amplitude i
      = (amplitude : ℝ) * (1/2) *
        (Real.sin (2 * Real.pi * ((dtmfF1 c : ℚ) : ℝ)
            * (((i : ℤ) + last : ℤ) : ℝ) / (fs : ℝ))
         + Real.sin (2 * Real.pi * ((dtmfF2 c : ℚ) : ℝ)
            * (((i : ℤ) + last : ℤ) : ℝ) / (fs : ℝ)))
    ∧ (c ∉ kSymbols → dtmfF1 c = 0 ∧ dtmfF2 c = 0)
    ∧ (c ∉ kSymbols →
        MakeDtmfTone len fs c last total amplitude i = 0) := by
  refine ⟨?_, fun h => unmapped_freqs c h, ?_⟩
  · unfold rawSample
    have e1 : 2 * Real.pi / (fs : ℝ) * ((dtmfF1 c : ℚ) : ℝ)
          * (((i : ℤ) + last : ℤ) : ℝ)
        = 2 * Real.pi * ((dtmfF1 c : ℚ) : ℝ)
          * (((i : ℤ) + last : ℤ) : ℝ) / (fs : ℝ) := by ring
    have e2 : 2 * Real.pi / (fs : ℝ) * ((dtmfF2 c : ℚ) : ℝ)
          * (((i : ℤ) + last : ℤ) : ℝ)
        = 2 * Real.pi * ((dtmfF2 c : ℚ) : ℝ)
          * (((i : ℤ) + last : ℤ) : ℝ) / (fs : ℝ) := by ring
    rw [e1, e2]
  · intro h
    obtain ⟨h1, h2⟩ := unmapped_freqs c h
    unfold MakeDtmfTone rawSample
    rw [h1, h2]
    norm_num

/-- Witness for C3: the unmapped symbol `'!'` synthesizes silence. -/
theorem c3_witness :
    MakeDtmfTone 8 8000 '!' 0 8 1 3 = 0 :=
  (c3_tone_formula 8 8000 '!' 0 8 1 3).2.2 (by decide)

/-- Claim C8: the fade windows of `MakeDtmfTone` are bounded by
`min(len, fs/250)` and never exceed `len` samples; the fade-out offset
`len - A` is never negative; every fade multiplier lies in `[0, 1]` (no sign
inversion); when `last = 0` the first written sample is exactly 0; and every
buffer index either fade loop touches lies in `[0, len)`. -/
theorem c8_fade_safety (len : ℕ) (fs : ℚ) (c : Char) (last total : ℤ)
    (amplitude : ℚ) :
    fadeLen len fs ≤ (len : ℚ)
    ∧ 0 ≤ fadeOutOffset len fs
    ∧ (∀ i : ℕ, 0 ≤ fadeInMul len fs last i ∧ fadeInMul len fs last i ≤ 1)
    ∧ (∀ i : ℕ, 0 ≤ fadeOutMul len fs last total i
        ∧ fadeOutMul len fs last total i ≤ 1)
    ∧ (last = 0 → 0 < len → 0 < fs →
        MakeDtmfTone len fs c last total amplitude 0 = 0)
    ∧ (∀ i : ℕ, last = 0 → (i : ℚ) < fadeLen len fs → i < len)
    ∧ (∀ i : ℕ, total - (len : ℤ) ≤ last → fadeOutOffset len fs ≤ (i : ℤ) →
        (i : ℚ) - (fadeOutOffset len fs : ℤ) < fadeLen len fs → i < len) := by
  have hlenb : fadeLen len fs ≤ (len : ℚ) := min_le_left _ _
  have hoff0 : 0 ≤ fadeOutOffset len fs :=
    Int.floor_nonneg.mpr (sub_nonneg.mpr hlenb)
  have hoffle : (fadeOutOffset len fs : ℚ) ≤ (len : ℚ) - fadeLen len fs :=
    Int.floor_le _
  refine ⟨hlenb, hoff0, ?_, ?_, ?_, ?_, ?_⟩
  · intro i
    unfold fadeInMul
    split_ifs with hc
    · have hpos : 0 < fadeLen len fs :=
        lt_of_le_of_lt (Nat.cast_nonneg i) hc.2
      exact ⟨div_nonneg (Nat.cast_nonneg i) (le_of_lt hpos),
        (div_le_one hpos).mpr (le_of_lt hc.2)⟩
    · norm_num
  · intro i
    unfold fadeOutMul
    split_ifs with hc
    · obtain ⟨-, hoff, hlt⟩ := hc
      have hx0 : 0 ≤ (i : ℚ) - (fadeOutOffset len fs : ℤ) := by
        have : ((fadeOutOffset len fs : ℤ) : ℚ) ≤ ((i : ℤ) : ℚ) := by
          exact_mod_cast hoff
        push_cast at this ⊢
        linarith
      have hpos : 0 < fadeLen len fs := lt_of_le_of_lt hx0 hlt
      constructor
      · have : ((i : ℚ) - (fadeOutOffset len fs : ℤ)) / fadeLen len fs ≤ 1 :=
          (div_le_one hpos).mpr (le_of_lt hlt)
        linarith
      · have : 0 ≤ ((i : ℚ) - (fadeOutOffset len fs : ℤ)) / fadeLen len fs :=
          div_nonneg hx0 (le_of_lt hpos)
        linarith
    · norm_num
  · intro hlast hlen hfs
    have hpos : 0 < fadeLen len fs := by
      unfold fadeLen
      apply lt_min
      · exact_mod_cast hlen
      · exact div_pos hfs (by norm_num [kFadeInOut])
    have hin0 : fadeInMul len fs last 0 = 0 := by
      unfold fadeInMul
      rw [if_pos ⟨hlast, by exact_mod_cast hpos⟩]
      simp
    unfold MakeDtmfTone
    rw [hin0]
    push_cast
    ring
  · intro i _ hlt
    have : (i : ℚ) < (len : ℚ) := lt_of_lt_of_le hlt hlenb
    exact_mod_cast this
  · intro i _ hoff hlt
    have h1 : (i : ℚ) < (fadeOutOffset len fs : ℤ) + fadeLen len fs := by
      linarith
    have h2 : (i : ℚ) < (len : ℚ) := by linarith
    exact_mod_cast h2

/-- Witness for C8: the sample written at index 0 of a fresh symbol is 0. -/
theorem c8_witness :
    MakeDtmfTone 8 8000 '1' 0 8 1 0 = 0 :=
  (c8_fade_safety 8 8000 '1' 0 8 1).2.2.2.2.1 rfl (by norm_num) (by norm_num)

/-- Claim C4: outside the fade-in window at the symbol start (the first
`fs/250` indices) and the fade-out windows at the symbol end (from each call's
`fadeOutOffset` on), concatenating `MakeDtmfTone` with `last = 0, len = k` and
`last = k, len = m` equals the single call with `last = 0, len = k + m`:
the `+ last` phase offset makes the split synthesis phase-continuous. -/
theorem c4_phase_continuity (c : Char) (fs amplitude : ℚ) (k m : ℕ)
    (total : ℤ) (hkm : (k : ℤ) + m ≤ total) (hfs : 0 < fs) (i : ℕ)
    (hi : i < k + m)
    (hFI : fs / kFadeInOut ≤ (i : ℚ))
    (hFO1 : (i : ℤ) < fadeOutOffset (k + m) fs)
    (hFO2 : (i : ℤ) < (k : ℤ) + fadeOutOffset m fs) :
    (if i < k then MakeDtmfTone k fs c 0 total amplitude i
     else MakeDtmfTone m fs c (k : ℤ) total amplitude (i - k))
      = MakeDtmfTone (k + m) fs c 0 total amplitude i := by
  have hfifs : ∀ L : ℕ, ¬ ((i : ℚ) < fadeLen L fs) := fun L =>
    not_lt.mpr (le_trans (min_le_right _ _) hFI)
  have hone_in : fadeInMul (k + m) fs 0 i = 1 := by
    unfold fadeInMul
    exact if_neg fun hx => hfifs (k + m) hx.2
  have hone_out : fadeOutMul (k + m) fs 0 total i = 1 := by
    unfold fadeOutMul
    exact if_neg fun hx => absurd hx.2.1 (not_le.mpr hFO1)
  rcases Nat.eq_zero_or_pos m with hm0 | hmpos
  · subst hm0
    rw [if_pos (by omega : i < k), Nat.add_zero]
  · have hklt : (k : ℤ) < total := by omega
    by_cases hik : i < k
    · rw [if_pos hik]
      have h1in : fadeInMul k fs 0 i = 1 := by
        unfold fadeInMul
        exact if_neg fun hx => hfifs k hx.2
      have h1out : fadeOutMul k fs 0 total i = 1 := by
        unfold fadeOutMul
        exact if_neg fun hx => absurd hx.1 (by omega)
      unfold MakeDtmfTone
      rw [h1in, h1out, hone_in, hone_out]
    · rw [if_neg hik]
      have hk_le : k ≤ i := Nat.le_of_not_lt hik
      have h2in : fadeInMul m fs (k : ℤ) (i - k) = 1 := by
        unfold fadeInMul
        refine if_neg fun hx => ?_
        have hk0 : k = 0 := by exact_mod_cast hx.1
        subst hk0
        simp only [Nat.sub_zero] at hx
        exact hfifs m hx.2
      have h2out : fadeOutMul m fs (k : ℤ) total (i - k) = 1 := by
        unfold fadeOutMul
        refine if_neg fun hx => ?_
        have hcast : ((i - k : ℕ) : ℤ) = (i : ℤ) - k := by omega
        have := hx.2.1
        rw [hcast] at this
        omega
      have hraw : rawSample fs c (k : ℤ) amplitude (i - k)
          = rawSample fs c 0 amplitude i := by
        unfold rawSample
        have harg : (((i - k : ℕ) : ℤ) + (k : ℤ) : ℤ) = ((i : ℤ) + 0 : ℤ) := by
          omega
        rw [harg]
      unfold MakeDtmfTone
      rw [h2in, h2out, hone_in, hone_out, hraw]

/-- Evaluation rule for the fade-out offset. -/
theorem fadeOutOffset_eval (len : ℕ) (fs : ℚ) (v : ℤ)
    (h1 : (v : ℚ) ≤ (len : ℚ) - fadeLen len fs)
    (h2 : (len : ℚ) - fadeLen len fs < v + 1) :
    fadeOutOffset len fs = v := by
  unfold fadeOutOffset
  rw [Int.floor_eq_iff]
  exact ⟨h1, by exact_mod_cast h2⟩

/-- Witness for C4 at a concrete split (rate 250, total 10, split 3 + 4,
index 2). -/
theorem c4_witness :
    (if 2 < 3 then MakeDtmfTone 3 250 '1' 0 10 1 2
     else MakeDtmfTone 4 250 '1' 3 10 1 (2 - 3))
      = MakeDtmfTone (3 + 4) 250 '1' 0 10 1 2 :=
  c4_phase_continuity '1' 250 1 3 4 10 (by norm_num) (by norm_num) 2
    (by norm_num) (by norm_num [kFadeInOut])
    (by
      have h7 : fadeOutOffset (3 + 4) 250 = 6 := by
        apply fadeOutOffset_eval <;> norm_num [fadeLen, kFadeInOut, min_def]
      rw [h7]
      norm_num)
    (by
      have h4 : fadeOutOffset 4 250 = 3 := by
        apply fadeOutOffset_eval <;> norm_num [fadeLen, kFadeInOut, min_def]
      rw [h4]
      norm_num)

/-- Unfolding lemma for `segLens`. -/
theorem segLens_succ (t s : ℤ) (k : ℕ) (d : ℤ) (b : Bool) :
    segLens t s (k + 1) d b
      = ((if !b then t else s) + (if 0 < d then 1 else 0)) ::
          segLens t s k (d - 1) (!b) := rfl

/-- Flipping the `isTone` flag advances the parity of the segment index. -/
theorem flip_flag (j : ℕ) :
    (!decide (j % 2 = 1)) = decide ((j + 1) % 2 = 1) := by
  by_cases h : j % 2 = 1
  · have h2 : (j + 1) % 2 = 0 := by omega
    simp [h, h2]
  · have h1 : j % 2 = 0 := by omega
    have h2 : (j + 1) % 2 = 1 := by omega
    simp [h1, h2]

/-- Past the last segment the remaining capacity is 0. -/
theorem cap_zero_of_le (t s d0 : ℤ) (K j : ℕ) (h : K ≤ j) :
    cap t s d0 K j = 0 := by
  unfold cap
  rw [Nat.sub_eq_zero_of_le h]
  rfl

/-- Peeling one segment off the remaining capacity. -/
theorem cap_succ (t s d0 : ℤ) (K j : ℕ) (h : j < K) :
    cap t s d0 K j
      = ((if decide ((j + 1) % 2 = 1) = true then t else s)
          + (if 0 < d0 - (j : ℤ) then 1 else 0))
        + cap t s d0 K (j + 1) := by
  unfold cap
  have hk : K - j = (K - (j + 1)) + 1 := by omega
  rw [hk, segLens_succ, List.sum_cons, flip_flag]
  have hd : d0 - (j : ℤ) - 1 = d0 - ((j + 1 : ℕ) : ℤ) := by push_cast; ring
  rw [hd]

/-- At most every started segment is a tone. -/
theorem toneCnt_le (b : Bool) (k : ℕ) : toneCnt b k ≤ k := by
  have h := toneCnt_halves k
  cases b
  · omega
  · omega

/-- With nonnegative slot lengths every remaining capacity is nonnegative. -/
theorem cap_nonneg (t s d0 : ℤ) (ht : 0 ≤ t) (hs : 0 ≤ s) (K j : ℕ) :
    0 ≤ cap t s d0 K j := by
  unfold cap
  rw [segLens_sum]
  have htc := toneCnt_le (decide (j % 2 = 1)) (K - j)
  have h1 : (0 : ℤ) ≤ (toneCnt (decide (j % 2 = 1)) (K - j) : ℤ) * t :=
    mul_nonneg (by exact_mod_cast Nat.zero_le _) ht
  have h2 : (0 : ℤ) ≤ ((K - j : ℕ) : ℤ)
      - (toneCnt (decide (j % 2 = 1)) (K - j) : ℤ) := by
    omega
  have h3 : (0 : ℤ) ≤ (((K - j : ℕ) : ℤ)
      - (toneCnt (decide (j % 2 = 1)) (K - j) : ℤ)) * s := mul_nonneg h2 hs
  have h4 : (0 : ℤ) ≤ min (max (d0 - (j : ℤ)) 0) ((K - j : ℕ) : ℤ) := by
    omega
  linarith

/-- Within the invariant, the sequence index used by a tone chunk is in
bounds. -/
theorem inv_guard (N d0 : ℤ) (j : ℕ) (r : ℤ) (st : BlockState)
    (h : InvSt N d0 j r st) (htone : st.isTone = true) :
    0 ≤ st.curSeqPos ∧ st.curSeqPos < N := by
  obtain ⟨-, -, -, h4, h5, h6⟩ := h
  rw [htone] at h4
  have hj : j % 2 = 1 := of_decide_eq_true h4.symm
  rw [h5]
  omega

/-- Starting a new segment preserves the invariant, moving to segment `j + 1`
with the peeled segment length as the new remaining count. -/
theorem startSegment_inv (N d0 t s : ℤ) (ht : 0 ≤ t) (hs : 0 ≤ s)
    (j : ℕ) (st : BlockState)
    (hinv : InvSt N d0 j 0 st) (hjK : (j : ℤ) < 2 * N - 1) :
    InvSt N d0 (j + 1)
      ((if decide ((j + 1) % 2 = 1) = true then t else s)
        + (if 0 < d0 - (j : ℤ) then 1 else 0))
      (startSegment t s st) := by
  obtain ⟨h1, -, h3, h4, h5, -⟩ := hinv
  by_cases hj : j % 2 = 1
  · -- segment `j` is a silence segment (`j` odd)
    have hb : st.isTone = true := by rw [h4]; simp [hj]
    have hb2 : (j + 1) % 2 = 0 := by omega
    unfold startSegment
    rw [hb]
    simp only [Bool.not_true, Bool.false_eq_true, if_false]
    refine ⟨?_, ?_, ?_, ?_, ?_, by omega⟩
    · show s + (if 0 < st.diff then (1 : ℤ) else 0) = _
      rw [h3]
      simp [hb2]
    · have : (if decide ((j + 1) % 2 = 1) = true then t else s) = s := by
        simp [hb2]
      rw [this]
      split_ifs <;> omega
    · show st.diff - 1 = d0 - ((j + 1 : ℕ) : ℤ)
      rw [h3]
      push_cast
      ring
    · show (false : Bool) = decide ((j + 1) % 2 = 1)
      simp [hb2]
    · show st.curSeqPos = ((j + 1 + 1) / 2 : ℕ) - 1
      rw [h5]
      have he : (j + 1) / 2 = (j + 1 + 1) / 2 := by omega
      rw [he]
  · -- segment `j` is a tone segment (`j` even)
    have hb : st.isTone = false := by rw [h4]; simp [hj]
    have hb2 : (j + 1) % 2 = 1 := by omega
    unfold startSegment
    rw [hb]
    simp only [Bool.not_false, if_true]
    refine ⟨?_, ?_, ?_, ?_, ?_, by omega⟩
    · show t + (if 0 < st.diff then (1 : ℤ) else 0) = _
      rw [h3]
      simp [hb2]
    · have : (if decide ((j + 1) % 2 = 1) = true then t else s) = t := by
        simp [hb2]
      rw [this]
      split_ifs <;> omega
    · show st.diff - 1 = d0 - ((j + 1 : ℕ) : ℤ)
      rw [h3]
      push_cast
      ring
    · show (true : Bool) = decide ((j + 1) % 2 = 1)
      simp [hb2]
    · show st.curSeqPos + 1 = ((j + 1 + 1) / 2 : ℕ) - 1
      rw [h5]
      have hj0 : j % 2 = 0 := by omega
      have he1 : (j + 1) / 2 = j / 2 := by omega
      have he2 : (j + 1 + 1) / 2 = j / 2 + 1 := by omega
      rw [he1, he2]
      push_cast
      ring

/-- The optional `curTonePos` update leaves the other fields unchanged. -/
theorem st2_fields (st1 : BlockState) (c : Prop) [Decidable c] (x : ℤ) :
    ((if c then { st1 with curTonePos := x } else st1).isTone = st1.isTone)
    ∧ ((if c then { st1 with curTonePos := x } else st1).curSeqPos
        = st1.curSeqPos)
    ∧ ((if c then { st1 with curTonePos := x } else st1).numRemaining
        = st1.numRemaining)
    ∧ ((if c then { st1 with curTonePos := x } else st1).diff = st1.diff) := by
  split <;> exact ⟨rfl, rfl, rfl, rfl⟩

/-- Unfolding lemma for one iteration of the `ProcessBlock` loop. -/
theorem processBlockGo_succ (seqLen t s : ℤ) (fuel : ℕ) (st : BlockState)
    (size processed : ℕ) :
    ProcessBlockGo seqLen t s (fuel + 1) st size processed
      = if size = 0 then some (st, processed)
        else
          (fun st1 =>
            if st1.isTone = true
                ∧ ¬(0 ≤ st1.curSeqPos ∧ st1.curSeqPos < seqLen) then none
            else
              ProcessBlockGo seqLen t s fuel
                { (if st1.isTone = true then
                    { st1 with curTonePos :=
                        st1.curTonePos + ↑(min size st1.numRemaining.toNat) }
                  else st1) with
                  numRemaining :=
                    st1.numRemaining - ↑(min size st1.numRemaining.toNat) }
                (size - min size st1.numRemaining.toNat)
                (processed + min size st1.numRemaining.toNat))
            (if st.numRemaining = 0 then startSegment t s st else st) := rfl

/-- Total-correctness of the `ProcessBlock` loop: started inside the
invariant with enough remaining capacity and fuel, the loop produces exactly
`size` samples, never fails the sequence-bounds guard, and lands back in the
invariant with the capacity decreased by `size`. -/
theorem processGo_total (N t s d0 : ℤ) (K : ℕ)
    (hN : 1 ≤ N) (ht : 0 ≤ t) (hs : 0 ≤ s) (hK : (K : ℤ) = 2 * N - 1) :
    ∀ (fuel : ℕ) (j : ℕ) (r : ℤ) (st : BlockState) (size processed : ℕ),
      InvSt N d0 j r st →
      (size : ℤ) ≤ r + cap t s d0 K j →
      size + (K - j) + 1 ≤ fuel →
      ∃ (j' : ℕ) (r' : ℤ) (st' : BlockState),
        ProcessBlockGo N t s fuel st size processed
          = some (st', processed + size)
        ∧ InvSt N d0 j' r' st'
        ∧ r' + cap t s d0 K j' + size = r + cap t s d0 K j := by
  intro fuel
  induction fuel with
  | zero =>
    intro j r st size processed _ _ hfuel
    exfalso
    omega
  | succ fuel ih =>
    intro j r st size processed hinv hcap hfuel
    by_cases hsz : size = 0
    · subst hsz
      refine ⟨j, r, st, ?_, hinv, by ring⟩
      rw [processBlockGo_succ, if_pos rfl, Nat.add_zero]
    · rw [processBlockGo_succ, if_neg hsz]
      by_cases hr : st.numRemaining = 0
      · -- a new segment is started
        obtain ⟨h1, h2, h3, h4, h5, h6⟩ := hinv
        have hr0 : r = 0 := by rw [← h1, hr]
        subst hr0
        have hszpos : (0 : ℤ) < (size : ℤ) := by
          exact_mod_cast Nat.pos_of_ne_zero hsz
        have hcapj : 0 < cap t s d0 K j := by linarith
        have hjK : j < K := by
          by_contra hge
          rw [cap_zero_of_le t s d0 K j (by omega)] at hcapj
          omega
        have hinv1 := startSegment_inv N d0 t s ht hs j st
          ⟨h1, le_refl 0, h3, h4, h5, h6⟩ (by omega)
        rw [if_pos hr]
        simp only []
        set st1 := startSegment t s st with hst1
        set r1 : ℤ := (if decide ((j + 1) % 2 = 1) = true then t else s)
            + (if 0 < d0 - (j : ℤ) then 1 else 0) with hr1
        obtain ⟨g1, g2, g3, g4, g5, g6⟩ := hinv1
        have hguard : ¬(st1.isTone = true
            ∧ ¬(0 ≤ st1.curSeqPos ∧ st1.curSeqPos < N)) := by
          rintro ⟨ha, hb⟩
          exact hb (inv_guard N d0 (j + 1) r1 st1 ⟨g1, g2, g3, g4, g5, g6⟩ ha)
        rw [if_neg hguard]
        have hpeel := cap_succ t s d0 K j hjK
        set len : ℕ := min size st1.numRemaining.toNat with hlen
        have hlen_size : len ≤ size := min_le_left _ _
        have hlen_r1 : (len : ℤ) ≤ r1 := by
          have hmr := min_le_right size st1.numRemaining.toNat
          omega
        obtain ⟨sf1, sf2, sf3, sf4⟩ := st2_fields st1 (st1.isTone = true)
          (st1.curTonePos + ↑len)
        have hinv2 : InvSt N d0 (j + 1) (r1 - len)
            { (if st1.isTone = true then
                { st1 with curTonePos := st1.curTonePos + ↑len }
              else st1) with
              numRemaining := st1.numRemaining - ↑len } := by
          refine ⟨?_, by omega, ?_, ?_, ?_, g6⟩
          · show st1.numRemaining - (len : ℤ) = r1 - len
            rw [g1]
          · show (if st1.isTone = true then
                { st1 with curTonePos := st1.curTonePos + ↑len }
              else st1).diff = d0 - ((j + 1 : ℕ) : ℤ)
            rw [sf4, g3]
          · show (if st1.isTone = true then
                { st1 with curTonePos := st1.curTonePos + ↑len }
              else st1).isTone = decide ((j + 1) % 2 = 1)
            rw [sf1, g4]
          · show (if st1.isTone = true then
                { st1 with curTonePos := st1.curTonePos + ↑len }
              else st1).curSeqPos = (((j + 1 + 1) / 2 : ℕ) : ℤ) - 1
            rw [sf2, g5]
        obtain ⟨j', r', st', heq, hinv', hcap'⟩ := ih (j + 1) (r1 - len) _
          (size - len) (processed + len) hinv2 (by omega) (by omega)
        have hps : processed + len + (size - len) = processed + size := by
          omega
        rw [hps] at heq
        refine ⟨j', r', st', heq, hinv', ?_⟩
        omega
      · -- mid-segment: consume up to `numRemaining` samples
        obtain ⟨h1, h2, h3, h4, h5, h6⟩ := hinv
        have hrne : r ≠ 0 := fun he => hr (by rw [h1, he])
        have hrpos : 0 < r := by omega
        rw [if_neg hr]
        simp only []
        have hguard : ¬(st.isTone = true
            ∧ ¬(0 ≤ st.curSeqPos ∧ st.curSeqPos < N)) := by
          rintro ⟨ha, hb⟩
          exact hb (inv_guard N d0 j r st ⟨h1, h2, h3, h4, h5, h6⟩ ha)
        rw [if_neg hguard]
        set len : ℕ := min size st.numRemaining.toNat with hlen
        have hlen_size : len ≤ size := min_le_left _ _
        have hlen_r : (len : ℤ) ≤ r := by
          have hmr := min_le_right size st.numRemaining.toNat
          omega
        have hlen_pos : 0 < len := by
          have hmr := min_le_right size st.numRemaining.toNat
          have hsp : 0 < size := Nat.pos_of_ne_zero hsz
          omega
        obtain ⟨sf1, sf2, sf3, sf4⟩ := st2_fields st (st.isTone = true)
          (st.curTonePos + ↑len)
        have hinv2 : InvSt N d0 j (r - len)
            { (if st.isTone = true then
                { st with curTonePos := st.curTonePos + ↑len }
              else st) with
              numRemaining := st.numRemaining - ↑len } := by
          refine ⟨?_, by omega, ?_, ?_, ?_, h6⟩
          · show st.numRemaining - (len : ℤ) = r - len
            rw [h1]
          · show (if st.isTone = true then
                { st with curTonePos := st.curTonePos + ↑len }
              else st).diff = d0 - ((j : ℕ) : ℤ)
            rw [sf4, h3]
          · show (if st.isTone = true then
                { st with curTonePos := st.curTonePos + ↑len }
              else st).isTone = decide (j % 2 = 1)
            rw [sf1, h4]
          · show (if st.isTone = true then
                { st with curTonePos := st.curTonePos + ↑len }
              else st).curSeqPos = (((j + 1) / 2 : ℕ) : ℤ) - 1
            rw [sf2, h5]
        obtain ⟨j', r', st', heq, hinv', hcap'⟩ := ih j (r - len) _
          (size - len) (processed + len) hinv2 (by omega) (by omega)
        have hps : processed + len + (size - len) = processed + size := by
          omega
        rw [hps] at heq
        refine ⟨j', r', st', heq, hinv', ?_⟩
        omega

/-- One whole `ProcessBlock` call: the built-in fuel suffices and the call
returns exactly the requested size. -/
theorem processBlock_total (N t s d0 : ℤ) (K : ℕ)
    (hN : 1 ≤ N) (ht : 0 ≤ t) (hs : 0 ≤ s) (hK : (K : ℤ) = 2 * N - 1)
    (j : ℕ) (r : ℤ) (st : BlockState) (size : ℕ)
    (hinv : InvSt N d0 j r st) (hcap : (size : ℤ) ≤ r + cap t s d0 K j) :
    ∃ (j' : ℕ) (r' : ℤ) (st' : BlockState),
      ProcessBlock N t s st size = some (st', size)
      ∧ InvSt N d0 j' r' st'
      ∧ r' + cap t s d0 K j' + size = r + cap t s d0 K j := by
  have hj : (j : ℤ) ≤ 2 * N - 1 := by
    obtain ⟨-, -, -, -, -, h6⟩ := hinv
    exact h6
  obtain ⟨j', r', st', heq, hinv', hcap'⟩ := processGo_total N t s d0 K hN ht
    hs hK (size + 2 * N.toNat + 2) j r st size 0 hinv hcap (by omega)
  exact ⟨j', r', st', by simpa [ProcessBlock] using heq, hinv', hcap'⟩

/-- A whole run of `ProcessBlock` calls stays inside the invariant as long as
the cumulative requested sizes fit in the remaining capacity, each call
returning its full request. -/
theorem runBlocks_total (N t s d0 : ℤ) (K : ℕ)
    (hN : 1 ≤ N) (ht : 0 ≤ t) (hs : 0 ≤ s) (hK : (K : ℤ) = 2 * N - 1) :
    ∀ (sizes : List ℕ) (j : ℕ) (r : ℤ) (st : BlockState),
      InvSt N d0 j r st →
      ((sizes.sum : ℕ) : ℤ) ≤ r + cap t s d0 K j →
      ∃ st', runBlocks N t s st sizes = some (st', sizes) := by
  intro sizes
  induction sizes with
  | nil =>
    intro j r st _ _
    exact ⟨st, rfl⟩
  | cons sz rest ih =>
    intro j r st hinv hcap
    rw [List.sum_cons, Nat.cast_add] at hcap
    have hrest : (0 : ℤ) ≤ ((rest.sum : ℕ) : ℤ) := by exact_mod_cast Nat.zero_le _
    have hsz : (sz : ℤ) ≤ r + cap t s d0 K j := by linarith
    obtain ⟨j', r', st1, heq, hinv', hcap'⟩ :=
      processBlock_total N t s d0 K hN ht hs hK j r st sz hinv hsz
    obtain ⟨st2, heq2⟩ := ih j' r' st1 hinv' (by omega)
    refine ⟨st2, ?_⟩
    simp only [runBlocks, heq, heq2]

/-- Claim C10: after a successful `ProcessInitialize`, provided the cumulative
samples requested across the `ProcessBlock` calls do not exceed
`numSamplesSequence`, every call terminates and returns exactly the requested
size, and the sequence access `dtmfSequence[curSeqPos]` performed for each
tone chunk is in bounds (`0 ≤ curSeqPos < dtmfNTones`): the run returns `some`
with the processed list equal to the request list (the model's bounds guard
returns `none` on any out-of-range access, and `none` also signals fuel
exhaustion, i.e. non-termination). -/
theorem c10_processBlock_safe (seq : List Char) (dc amp dur0 mT0 fs : ℚ)
    (h0 : 0 ≤ dc) (h1 : dc ≤ 100) (hdur : 0 ≤ dur0) (hfs : 0 < fs)
    (ist : InitState)
    (hinit : configInit seq dc amp dur0 mT0 fs = some ist)
    (sizes : List ℕ)
    (hsum : ((sizes.sum : ℕ) : ℤ) ≤ ist.numSamplesSequence) :
    ∃ st', runBlocks (seq.length : ℤ) ist.numSamplesTone
        ist.numSamplesSilence (initialBlockState ist.diff) sizes
      = some (st', sizes) := by
  obtain ⟨hN, hTeq, -, -, hT0, hS0, hdiff, hd0, hd1⟩ :=
    configInit_spec seq dc amp dur0 mT0 fs h0 h1 hdur hfs ist hinit
  have hK : ((2 * seq.length - 1 : ℕ) : ℤ) = 2 * (seq.length : ℤ) - 1 := by
    omega
  have hinv0 : InvSt (seq.length : ℤ) ist.diff 0 0
      (initialBlockState ist.diff) := by
    refine ⟨rfl, le_refl 0, by simp [initialBlockState], rfl, rfl, by omega⟩
  have hcap0 : cap ist.numSamplesTone ist.numSamplesSilence ist.diff
      (2 * seq.length - 1) 0 = ist.numSamplesSequence := by
    unfold cap
    rw [Nat.sub_zero]
    have hd : ist.diff - ((0 : ℕ) : ℤ) = ist.diff := by simp
    rw [hd]
    have hb : decide ((0 : ℕ) % 2 = 1) = false := by decide
    rw [hb]
    exact segLens_total ist.numSamplesTone ist.numSamplesSilence
      ist.numSamplesSequence (seq.length : ℤ) ist.diff (2 * seq.length - 1)
      hN hK hdiff hd0 hd1
  exact runBlocks_total (seq.length : ℤ) ist.numSamplesTone
    ist.numSamplesSilence ist.diff (2 * seq.length - 1) hN hT0 hS0 hK sizes
    0 0 (initialBlockState ist.diff) hinv0 (by rw [hcap0, zero_add]; exact hsum)

/-- Witness for C10 at the concrete configuration of `configInit_12_50`,
requested as two blocks of 5 samples. -/
theorem c10_witness :
    ∃ st', runBlocks (((['1', '2'] : List Char).length : ℕ) : ℤ)
        (⟨10, 3, 3, 1⟩ : InitState).numSamplesTone
        (⟨10, 3, 3, 1⟩ : InitState).numSamplesSilence
        (initialBlockState (⟨10, 3, 3, 1⟩ : InitState).diff) [5, 5]
      = some (st', [5, 5]) :=
  c10_processBlock_safe ['1', '2'] 50 1 1 0 10 (by norm_num) (by norm_num)
    (by norm_num) (by norm_num) ⟨10, 3, 3, 1⟩ configInit_12_50 [5, 5]
    (by decide)

end DtmfGen
